import Mathlib

/-!
Verification of the lunie chain-aggregation layer.

Shallow embedding of the retrieval and reducer code:
* `src/api/lib/reducers/polkadotV0-reducers.js` (staking aggregation,
  reward aggregation, tally reducer, identity reducer), and
* the Cosmos REST data source class (`getRetry`, `loadPaginatedTxs`,
  `getSelfStake`, `getValidatorSigningInfo`,
  `getDelegationsForDelegatorAddress`).

Modelling conventions:
* BigNumber / JS number arithmetic on chain amounts is modelled exactly over
  `Rat`; the float64 narrowing of `.toNumber()` is treated as exact.
* JS string-keyed objects used for grouping are modelled as association
  lists with insertion-order semantics (first write appends the key at the
  end, later writes update in place), matching `Object.entries` enumeration
  order for non-numeric string keys.
* Asynchronous upstream queries are modelled as explicit inputs: a function
  from attempt / page number to the response, or an `Except` value for a
  single query.
-/

set_option maxRecDepth 16000

/-- Left-pad a digit string with zeros to width `f`. -/
def padZeros (f : Nat) (s : String) : String :=
  String.mk (List.replicate (f - s.length) (Char.ofNat 48)) ++ s

/-- JS `Number.prototype.toFixed(f)` for a non-negative rational:
the integer `n` with `n / 10^f` closest to the value, ties picking the
larger `n` (ECMA-262), rendered with exactly `f` fractional digits.
`n = floor(q * 10^f + 1/2)` is computed on the numerator/denominator pair
as `floor((2 * num * 10^f + den) / (2 * den))`. -/
def jsToFixedNonneg (f : Nat) (q : Rat) : String :=
  let n : Nat := (Int.fdiv (2 * q.num * (10 : Int) ^ f + q.den) (2 * q.den)).toNat
  let ip := n / 10 ^ f
  let fp := n % 10 ^ f
  if f = 0 then toString ip
  else toString ip ++ "." ++ padZeros f (toString fp)

/-- JS `toFixed` with sign handling (ECMA-262 applies the algorithm to the
magnitude and prepends the sign). -/
def jsToFixed (f : Nat) (q : Rat) : String :=
  if q.num < 0 then "-" ++ jsToFixedNonneg f (-q) else jsToFixedNonneg f q

/-! ## Identity resolution (`identityReducer`, polkadotV0-reducers.js:79-92) -/

/-- A Polkadot identity record; `none` models a missing (undefined) field,
`some ""` an empty string (the source treats both as falsy). -/
structure Identity where
  displayParent : Option String
  display : Option String

/-- JS truthiness of `x && x !== ''` for an optional string field. -/
def optTruthyStr (o : Option String) : Bool :=
  match o with
  | none => false
  | some s => decide (s ≠ "")

/-- `identityReducer(address, identity)` from polkadotV0-reducers.js:
`displayParent/display` when both are set and non-empty, else `display`
when set and non-empty, else the raw address. -/
def identityReducer (address : String) (identity : Identity) : String :=
  if optTruthyStr identity.displayParent && optTruthyStr identity.display then
    identity.displayParent.getD "" ++ "/" ++ identity.display.getD ""
  else
    if optTruthyStr identity.display then identity.display.getD "" else address

/-! ## Token-weighted tally (`tallyReducer`, polkadotV0-reducers.js:600-641) -/

/-- The slice of the static network configuration the reducers read:
`network.coinLookup[0].chainToViewConversionFactor`. -/
structure Network where
  chainToViewConversionFactor : Rat

/-- Modelled from the spec: `toViewDenom(network, rawAmount)` (defined in
the repository's `common/numbers.js`, which is not part of the provided
sources) multiplies the raw amount by the network's conversion factor. -/
def toViewDenom (network : Network) (v : Rat) : Rat :=
  v * network.chainToViewConversionFactor

/-- Raw referendum tally as reported by the chain (hex-string amounts,
modelled as exact rationals). -/
structure Tally where
  ayes : Rat
  nays : Rat
  turnout : Rat

/-- The reduced tally shape produced by `tallyReducer`. -/
structure ReducedTally where
  yes : Rat
  no : Rat
  abstain : Rat
  veto : Rat
  total : Rat
  totalVotedPercentage : String

/-- `tallyReducer(network, tally, totalIssuance)` from
polkadotV0-reducers.js:600-641: `totalVotedPercentage` is
`turnout / totalIssuance` rendered by `toFixed(4)`, not multiplied
by 100. -/
def tallyReducer (network : Network) (tally : Tally) (totalIssuance : Rat) :
    ReducedTally :=
  let turnout := tally.turnout
  let totalVoted := tally.ayes + tally.nays
  let total := toViewDenom network totalVoted
  let yes := toViewDenom network tally.ayes
  let no := toViewDenom network tally.nays
  let totalVotedPercentage := jsToFixed 4 (turnout / totalIssuance)
  ⟨yes, no, 0, 0, total, totalVotedPercentage⟩

/-- C7: display-name resolution returns "displayParent/display" when both
are set and non-empty, else the non-empty display, else the raw address. -/
theorem identityReducer_fallback_chain (address : String) (identity : Identity) :
    (∀ p d, identity.displayParent = some p → p ≠ "" →
      identity.display = some d → d ≠ "" →
      identityReducer address identity = p ++ "/" ++ d)
    ∧ (∀ d, identity.display = some d → d ≠ "" →
      (identity.displayParent = none ∨ identity.displayParent = some "") →
      identityReducer address identity = d)
    ∧ ((identity.display = none ∨ identity.display = some "") →
      identityReducer address identity = address) := by
  refine ⟨?_, ?_, ?_⟩
  · intro p d hp hpne hd hdne
    simp [identityReducer, optTruthyStr, hp, hd, hpne, hdne]
  · intro d hd hdne hpar
    rcases hpar with h | h <;>
      simp [identityReducer, optTruthyStr, hd, hdne, h]
  · intro hdisp
    rcases hdisp with h | h <;>
      simp [identityReducer, optTruthyStr, h]

/-- C7 witness: the two concrete examples from the spec. -/
theorem identityReducer_fallback_chain_witness :
    identityReducer "addr0" ⟨some "Foo", some "Bar"⟩ = "Foo/Bar"
    ∧ identityReducer "addr1" ⟨none, some ""⟩ = "addr1" := by
  constructor
  · exact (identityReducer_fallback_chain "addr0" ⟨some "Foo", some "Bar"⟩).1
      "Foo" "Bar" rfl (by decide) rfl (by decide)
  · exact (identityReducer_fallback_chain "addr1" ⟨none, some ""⟩).2.2
      (Or.inr rfl)

/-- C6: the reduced tally's `totalVotedPercentage` is the quotient
`turnout / totalIssuance` rendered as a decimal fraction with 4 decimal
places (JS `toFixed(4)`), not multiplied by 100. -/
theorem tallyReducer_totalVotedPercentage (network : Network) (tally : Tally)
    (totalIssuance : Rat) (_h : 0 < totalIssuance) :
    (tallyReducer network tally totalIssuance).totalVotedPercentage =
      jsToFixed 4 (tally.turnout / totalIssuance) := by
  rfl

/-- C6 witness: turnout 300, totalIssuance 1000 gives "0.3000". -/
theorem tallyReducer_totalVotedPercentage_witness :
    (0 : Rat) < 1000 ∧
      (tallyReducer ⟨1⟩ ⟨200, 100, 300⟩ 1000).totalVotedPercentage = "0.3000" := by
  refine ⟨by norm_num, ?_⟩
  have h := tallyReducer_totalVotedPercentage ⟨1⟩ ⟨200, 100, 300⟩ 1000 (by norm_num)
  rw [h]
  have hnum : (((300 : Rat)) / 1000).num = 3 := by norm_num
  have hden : (((300 : Rat)) / 1000).den = 10 := by norm_num
  simp only [jsToFixed, jsToFixedNonneg, hnum, hden]
  decide

/-! ## Staking aggregation (`aggregateLunieStaking`, polkadotV0-reducers.js:318-366) -/

/-- The argument payload of a raw Polkadot transaction primitive.  The
source reads `args.value` on a `bond`, `args.max_additional` on a
`bondExtra` and `args[0].toHuman()` (the target list) on a `nominate`;
all fields are present here and only the relevant one is read. -/
structure Args where
  value : Rat
  max_additional : Rat
  targets : List String
deriving DecidableEq

/-- A raw transaction primitive as seen by `aggregateLunieStaking`:
its `toHuman()` section/method pair plus the raw arguments.  (`section`
is a Lean keyword, hence the `msg` prefixes.) -/
structure RawMsg where
  msgSection : String
  msgMethod : String
  args : Args
deriving DecidableEq

/-- An element of the output list of `aggregateLunieStaking`: either a
preserved primitive (the source copies `{section, method, args}` through
a JSON round trip) or the synthetic aggregated lunie staking record
(`{method: 'staking', section: 'lunie', validators, amount}`). -/
inductive OutMsg where
  | primitive (m : RawMsg)
  | aggregated (amount : Rat) (validators : List String)
deriving DecidableEq

/-- The mutable state of the `messages.forEach` loop in
`aggregateLunieStaking`. -/
structure AggState where
  amount : Rat
  validators : List String
  hasBond : Bool
  hasNominate : Bool
  reducedMessages : List OutMsg

/-- One iteration of the `forEach` body: the three `if` statements
followed by the unconditional push of the reduced primitive. -/
def aggStep (st : AggState) (current : RawMsg) : AggState :=
  let s1 :=
    if current.msgSection = "staking" ∧ current.msgMethod = "bond" then
      { st with amount := st.amount + current.args.value, hasBond := true }
    else st
  let s2 :=
    if current.msgSection = "staking" ∧ current.msgMethod = "bondExtra" then
      { s1 with amount := s1.amount + current.args.max_additional, hasBond := true }
    else s1
  let s3 :=
    if current.msgSection = "staking" ∧ current.msgMethod = "nominate" then
      { s2 with validators := s2.validators ++ current.args.targets,
                hasNominate := true }
    else s2
  { s3 with reducedMessages := s3.reducedMessages ++ [OutMsg.primitive current] }

/-- `aggregateLunieStaking(messages)` from polkadotV0-reducers.js:318-366:
run the loop, then append the synthetic record exactly when both flags
are set. -/
def aggregateLunieStaking (messages : List RawMsg) : List OutMsg :=
  let st := messages.foldl aggStep ⟨0, [], false, false, []⟩
  if st.hasBond && st.hasNominate then
    st.reducedMessages ++ [OutMsg.aggregated st.amount st.validators]
  else st.reducedMessages

/-- A primitive counted as a bond by the aggregation: `staking.bond` or
`staking.bondExtra`. -/
def isBondMsg (m : RawMsg) : Bool :=
  decide (m.msgSection = "staking" ∧ (m.msgMethod = "bond" ∨ m.msgMethod = "bondExtra"))

/-- A `staking.nominate` primitive. -/
def isNominateMsg (m : RawMsg) : Bool :=
  decide (m.msgSection = "staking" ∧ m.msgMethod = "nominate")

/-- The amount a single primitive contributes to the aggregated bond sum. -/
def bondContribution (m : RawMsg) : Rat :=
  (if m.msgSection = "staking" ∧ m.msgMethod = "bond" then m.args.value else 0) +
    (if m.msgSection = "staking" ∧ m.msgMethod = "bondExtra" then
      m.args.max_additional else 0)

/-- Sum of the amounts of all bond and bond-extra primitives. -/
def bondSum (messages : List RawMsg) : Rat :=
  (messages.map bondContribution).sum

/-- Concatenation (in order, duplicates preserved) of the target lists of
all nominate primitives: this is what the code accumulates with
`Array.prototype.concat`. -/
def concatNominateTargets (messages : List RawMsg) : List String :=
  ((messages.filter isNominateMsg).map (fun m => m.args.targets)).flatten

/-- The union (duplicates removed, as `List.union`) of the target lists of
all nominate primitives — the reading of the claim that the code does not
implement. -/
def unionNominateTargets (messages : List RawMsg) : List String :=
  ((messages.filter isNominateMsg).map (fun m => m.args.targets)).foldr
    List.union []

/-- One `forEach` iteration, characterised field by field. -/
theorem aggStep_eq (st : AggState) (m : RawMsg) :
    aggStep st m =
      ⟨st.amount + bondContribution m,
        st.validators ++ (if isNominateMsg m then m.args.targets else []),
        st.hasBond || isBondMsg m,
        st.hasNominate || isNominateMsg m,
        st.reducedMessages ++ [OutMsg.primitive m]⟩ := by
  by_cases hs : m.msgSection = "staking"
  · by_cases h1 : m.msgMethod = "bond" <;>
      by_cases h2 : m.msgMethod = "bondExtra" <;>
      by_cases h3 : m.msgMethod = "nominate" <;>
      simp_all [aggStep, bondContribution, isBondMsg, isNominateMsg]
  · simp_all [aggStep, bondContribution, isBondMsg, isNominateMsg]

/-- `bondSum` unfolded one step. -/
theorem bondSum_cons (m : RawMsg) (ms : List RawMsg) :
    bondSum (m :: ms) = bondContribution m + bondSum ms := by
  simp [bondSum]

/-- `concatNominateTargets` unfolded one step. -/
theorem concatNominateTargets_cons (m : RawMsg) (ms : List RawMsg) :
    concatNominateTargets (m :: ms) =
      (if isNominateMsg m then m.args.targets else []) ++
        concatNominateTargets ms := by
  by_cases h : isNominateMsg m <;>
    simp [concatNominateTargets, List.filter_cons, h]

/-- The whole loop, characterised against an arbitrary starting state. -/
theorem foldl_aggStep_eq (messages : List RawMsg) : ∀ st : AggState,
    messages.foldl aggStep st =
      ⟨st.amount + bondSum messages,
        st.validators ++ concatNominateTargets messages,
        st.hasBond || messages.any isBondMsg,
        st.hasNominate || messages.any isNominateMsg,
        st.reducedMessages ++ messages.map OutMsg.primitive⟩ := by
  induction messages with
  | nil =>
    intro st
    simp [bondSum, concatNominateTargets]
  | cons m ms ih =>
    intro st
    rw [List.foldl_cons, aggStep_eq, ih, bondSum_cons, concatNominateTargets_cons,
      List.any_cons, List.any_cons, List.map_cons]
    simp [add_assoc, List.append_assoc, Bool.or_assoc]

/-- Closed form of `aggregateLunieStaking`: the preserved primitives in
input order, followed by the synthetic record exactly when the input has
both a bond (or bond-extra) and a nominate primitive. -/
theorem aggregateLunieStaking_characterization (messages : List RawMsg) :
    aggregateLunieStaking messages =
      messages.map OutMsg.primitive ++
        (if messages.any isBondMsg && messages.any isNominateMsg then
          [OutMsg.aggregated (bondSum messages) (concatNominateTargets messages)]
        else []) := by
  rw [aggregateLunieStaking, foldl_aggStep_eq]
  simp only [Bool.false_or, zero_add, List.nil_append]
  split <;> simp

/-- The spec example bond message (amount 100). -/
def exBondMsg : RawMsg := ⟨"staking", "bond", ⟨100, 0, []⟩⟩

/-- The spec example nominate message (validators V1, V2). -/
def exNominateMsg : RawMsg := ⟨"staking", "nominate", ⟨0, 0, ["V1", "V2"]⟩⟩

/-- A nominate message targeting only V1, used to exhibit duplicate
accumulation. -/
def cexNominateMsg : RawMsg := ⟨"staking", "nominate", ⟨0, 0, ["V1"]⟩⟩

/-- C1 (amended): one synthetic aggregated stake record is appended after
the preserved primitives (which appear in order) iff the sequence has at
least one bond or bond-extra primitive and at least one nominate
primitive; its amount is the sum of the bond and bond-extra amounts and
its validator list is the concatenation (not the deduplicated union) of
the nominate target lists.  In particular one bond (amount 100) plus one
nominate (validators V1, V2) yields the two preserved primitives plus the
record with amount 100 and validators V1, V2, and a bond with no nominate
yields no synthetic record. -/
theorem aggregateLunieStaking_concat_semantics :
    (∀ messages : List RawMsg,
      aggregateLunieStaking messages =
        messages.map OutMsg.primitive ++
          (if messages.any isBondMsg && messages.any isNominateMsg then
            [OutMsg.aggregated (bondSum messages) (concatNominateTargets messages)]
          else []))
    ∧ aggregateLunieStaking [exBondMsg, exNominateMsg] =
        [OutMsg.primitive exBondMsg, OutMsg.primitive exNominateMsg,
          OutMsg.aggregated 100 ["V1", "V2"]]
    ∧ aggregateLunieStaking [exBondMsg] = [OutMsg.primitive exBondMsg] := by
  refine ⟨aggregateLunieStaking_characterization, ?_, ?_⟩
  · rw [aggregateLunieStaking_characterization]
    have hsum : bondSum [exBondMsg, exNominateMsg] = 100 := by
      simp [bondSum, bondContribution, exBondMsg, exNominateMsg]
    have htar : concatNominateTargets [exBondMsg, exNominateMsg] = ["V1", "V2"] := by
      simp [concatNominateTargets, isNominateMsg, exBondMsg, exNominateMsg]
    rw [hsum, htar]
    simp [isBondMsg, isNominateMsg, exBondMsg, exNominateMsg]
  · rw [aggregateLunieStaking_characterization]
    simp [isBondMsg, isNominateMsg, exBondMsg]

/-- C1 counterexample: with one bond and two nominate primitives both
targeting V1, the synthetic record's validator list is the concatenation
["V1", "V1"], not the union ["V1"] the claim describes. -/
theorem aggregateLunieStaking_union_refuted :
    aggregateLunieStaking [exBondMsg, cexNominateMsg, cexNominateMsg] =
      [OutMsg.primitive exBondMsg, OutMsg.primitive cexNominateMsg,
        OutMsg.primitive cexNominateMsg, OutMsg.aggregated 100 ["V1", "V1"]]
    ∧ unionNominateTargets [exBondMsg, cexNominateMsg, cexNominateMsg] = ["V1"]
    ∧ (["V1", "V1"] : List String) ≠ ["V1"] := by
  refine ⟨?_, by decide, by decide⟩
  rw [aggregateLunieStaking_characterization]
  have hsum : bondSum [exBondMsg, cexNominateMsg, cexNominateMsg] = 100 := by
    simp [bondSum, bondContribution, exBondMsg, cexNominateMsg]
  have htar : concatNominateTargets [exBondMsg, cexNominateMsg, cexNominateMsg] =
      ["V1", "V1"] := by
    simp [concatNominateTargets, isNominateMsg, exBondMsg, cexNominateMsg]
  rw [hsum, htar]
  simp [isBondMsg, isNominateMsg, exBondMsg, cexNominateMsg]

/-! ## Retry policy (`CosmosV0API.getRetry`, cosmos data source lines 48-70) -/

/-- Observable outcome of a `getRetry` call tree: the value or error the
caller sees, the number of `get` attempts performed, the sleep durations
(ms) between attempts, and the `console.error` give-up log carrying the
failing url and the network id (`none` when nothing was logged). -/
structure RetryOutcome (ε α : Type) where
  result : Except ε α
  attempts : Nat
  delays : List Nat
  errorLog : Option (String × String)

/-- `getRetry(url, intent)`: try the query; on failure give up (logging
url and network id) once `intent >= 3`, otherwise sleep 1000 ms and
recurse with `intent + 1`.  The upstream is modelled as a function from
attempt index to that attempt's response; the cache flush and memoized
results bookkeeping, which do not affect the returned value, are not
modelled. -/
def getRetry {ε α : Type} (upstream : Nat → Except ε α) (url networkId : String)
    (intent : Nat) : RetryOutcome ε α :=
  match upstream intent with
  | Except.ok a => ⟨Except.ok a, 1, [], none⟩
  | Except.error e =>
    if h : 3 ≤ intent then ⟨Except.error e, 1, [], some (url, networkId)⟩
    else
      let rest := getRetry upstream url networkId (intent + 1)
      ⟨rest.result, rest.attempts + 1, 1000 :: rest.delays, rest.errorLog⟩
termination_by 4 - intent
decreasing_by omega

/-- A successful attempt returns immediately. -/
theorem getRetry_ok {ε α : Type} (upstream : Nat → Except ε α)
    (url networkId : String) (intent : Nat) (a : α)
    (h : upstream intent = Except.ok a) :
    getRetry upstream url networkId intent = ⟨Except.ok a, 1, [], none⟩ := by
  rw [getRetry.eq_def, h]

/-- A failure at `intent >= 3` gives up, logging url and network id. -/
theorem getRetry_give_up {ε α : Type} (upstream : Nat → Except ε α)
    (url networkId : String) (intent : Nat) (e : ε)
    (h : upstream intent = Except.error e) (h3 : 3 ≤ intent) :
    getRetry upstream url networkId intent =
      ⟨Except.error e, 1, [], some (url, networkId)⟩ := by
  rw [getRetry.eq_def, h]
  simp [h3]

/-- A failure below the budget sleeps 1000 ms and retries. -/
theorem getRetry_retry_step {ε α : Type} (upstream : Nat → Except ε α)
    (url networkId : String) (intent : Nat) (e : ε)
    (h : upstream intent = Except.error e) (h3 : intent < 3) :
    getRetry upstream url networkId intent =
      ⟨(getRetry upstream url networkId (intent + 1)).result,
        (getRetry upstream url networkId (intent + 1)).attempts + 1,
        1000 :: (getRetry upstream url networkId (intent + 1)).delays,
        (getRetry upstream url networkId (intent + 1)).errorLog⟩ := by
  have h4 : ¬ 3 ≤ intent := by omega
  rw [getRetry.eq_def, h]
  simp [h4]

/-- C2: if every attempt fails the caller receives the final error after
4 attempts (the initial one plus exactly 3 retries) with a fixed 1000 ms
delay between attempts, and the logged failure context carries the url
and the network id; if some attempt within the budget succeeds the caller
receives that success and no error is logged. -/
theorem getRetry_retry_policy {ε α : Type} (upstream : Nat → Except ε α)
    (url networkId : String) :
    ((∀ i, i ≤ 3 → ∃ e, upstream i = Except.error e) →
      ∃ e, upstream 3 = Except.error e ∧
        getRetry upstream url networkId 0 =
          ⟨Except.error e, 4, [1000, 1000, 1000], some (url, networkId)⟩)
    ∧ (∀ k a, k ≤ 3 → (∀ i, i < k → ∃ e, upstream i = Except.error e) →
        upstream k = Except.ok a →
        getRetry upstream url networkId 0 =
          ⟨Except.ok a, k + 1, List.replicate k 1000, none⟩) := by
  constructor
  · intro hfail
    obtain ⟨e0, h0⟩ := hfail 0 (by omega)
    obtain ⟨e1, h1⟩ := hfail 1 (by omega)
    obtain ⟨e2, h2⟩ := hfail 2 (by omega)
    obtain ⟨e3, h3⟩ := hfail 3 (by omega)
    refine ⟨e3, h3, ?_⟩
    rw [getRetry_retry_step upstream url networkId 0 e0 h0 (by omega),
      getRetry_retry_step upstream url networkId 1 e1 h1 (by omega),
      getRetry_retry_step upstream url networkId 2 e2 h2 (by omega),
      getRetry_give_up upstream url networkId 3 e3 h3 (by omega)]
  · intro k a hk hfail hok
    interval_cases k
    · rw [getRetry_ok upstream url networkId 0 a hok]
      simp
    · obtain ⟨e0, h0⟩ := hfail 0 (by omega)
      rw [getRetry_retry_step upstream url networkId 0 e0 h0 (by omega),
        getRetry_ok upstream url networkId 1 a hok]
      simp [List.replicate]
    · obtain ⟨e0, h0⟩ := hfail 0 (by omega)
      obtain ⟨e1, h1⟩ := hfail 1 (by omega)
      rw [getRetry_retry_step upstream url networkId 0 e0 h0 (by omega),
        getRetry_retry_step upstream url networkId 1 e1 h1 (by omega),
        getRetry_ok upstream url networkId 2 a hok]
      simp [List.replicate]
    · obtain ⟨e0, h0⟩ := hfail 0 (by omega)
      obtain ⟨e1, h1⟩ := hfail 1 (by omega)
      obtain ⟨e2, h2⟩ := hfail 2 (by omega)
      rw [getRetry_retry_step upstream url networkId 0 e0 h0 (by omega),
        getRetry_retry_step upstream url networkId 1 e1 h1 (by omega),
        getRetry_retry_step upstream url networkId 2 e2 h2 (by omega),
        getRetry_ok upstream url networkId 3 a hok]
      simp [List.replicate]

/-- C2 witness: an upstream that always fails makes `getRetry` return the
error after 4 attempts with 3 fixed delays and the url/network log. -/
theorem getRetry_retry_policy_witness :
    ∃ e, (fun _ : Nat => (Except.error "boom" : Except String Nat)) 3 =
        Except.error e ∧
      getRetry (fun _ : Nat => (Except.error "boom" : Except String Nat))
          "/txs" "net1" 0 =
        ⟨Except.error e, 4, [1000, 1000, 1000], some ("/txs", "net1")⟩ :=
  (getRetry_retry_policy (fun _ : Nat => Except.error "boom") "/txs" "net1").1
    (fun _ _ => ⟨"boom", rfl⟩)

/-! ## Paginated accumulation (`CosmosV0API.loadPaginatedTxs`, lines 705-720) -/

/-- `loadPaginatedTxs(url, page, totalAmount)`: fetch page `page`
(`limit=1000000000`), concatenate, and recurse with `page + 1` while the
accumulated count is below the reported `total_count`.  The upstream is
modelled as a function from page number to `(txs, total_count)` (the
`getRetry` transport is elided: every fetch succeeds).  The JS function
recurses without any bound, so the embedding is indexed by explicit fuel:
`none` means the recursion is still running after `fuel` nested calls,
and a result that is `none` for every fuel is a non-terminating run. -/
def loadPaginatedTxs {τ : Type} (upstream : Nat → List τ × Nat) :
    Nat → Nat → Nat → Option (List τ)
  | 0, _, _ => none
  | fuel + 1, page, totalAmount =>
    let txs := (upstream page).1
    let total_count := (upstream page).2
    let allTxs := txs
    if allTxs.length + totalAmount < total_count then
      match loadPaginatedTxs upstream fuel (page + 1) (totalAmount + allTxs.length) with
      | none => none
      | some rest => some (allTxs ++ rest)
    else some allTxs

/-- C3: the pagination loop has no bound.  Against an upstream that
reports `total_count = 1` but serves only empty pages, the recursion
never returns, whatever the page it starts from: no recursion depth
(fuel) suffices.  The spec requires the loop to be bounded, so this is a
defect of the code. -/
theorem loadPaginatedTxs_unbounded :
    ∀ fuel page : Nat,
      loadPaginatedTxs (fun _ => (([] : List Nat), 1)) fuel page 0 = none := by
  intro fuel
  induction fuel with
  | zero => intro page; rfl
  | succ n ih =>
    intro page
    simp [loadPaginatedTxs, ih (page + 1)]

/-- `List.getD` past the end of the list gives the default. -/
theorem getD_of_length_le {α : Type} :
    ∀ (l : List α) (n : Nat) (d : α), l.length ≤ n → l.getD n d = d := by
  intro l
  induction l with
  | nil => intro n d _; cases n <;> rfl
  | cons a t ih =>
    intro n d hn
    cases n with
    | zero => simp at hn
    | succ m =>
      simp only [List.getD_cons_succ]
      exact ih m d (by simpa using hn)

/-- `List.drop` below the length splits off the `getD` element. -/
theorem drop_eq_getD_cons {α : Type} :
    ∀ (l : List α) (k : Nat) (d : α), k < l.length →
      l.drop k = l.getD k d :: l.drop (k + 1) := by
  intro l
  induction l with
  | nil => intro k d hk; simp at hk
  | cons a t ih =>
    intro k d hk
    cases k with
    | zero => simp
    | succ m =>
      simp only [List.drop_succ_cons, List.getD_cons_succ]
      exact ih m d (by simpa using hk)

/-- Loop invariant for a consistent upstream: starting at page `k + 1`
with `T` already-accumulated transactions such that `T` plus the rest of
the pages make up exactly the reported total, the loop returns the
concatenation of the remaining pages. -/
theorem loadPaginatedTxs_exact_aux {τ : Type} :
    ∀ (fuel : Nat) (pages : List (List τ)) (k T : Nat),
      T + ((pages.drop k).flatten).length = (pages.flatten).length →
      pages.length - k < fuel →
      loadPaginatedTxs (fun p => (pages.getD (p - 1) [], (pages.flatten).length))
          fuel (k + 1) T = some ((pages.drop k).flatten) := by
  intro fuel
  induction fuel with
  | zero => intro pages k T hinv hfuel; omega
  | succ n ih =>
    intro pages k T hinv hfuel
    by_cases hk : k < pages.length
    · have hdrop := drop_eq_getD_cons pages k [] hk
      rw [hdrop, List.flatten_cons] at hinv ⊢
      simp only [loadPaginatedTxs, Nat.add_sub_cancel, List.length_append] at hinv ⊢
      by_cases hcond : (pages.getD k []).length + T < (pages.flatten).length
      · rw [if_pos hcond]
        rw [ih pages (k + 1) (T + (pages.getD k []).length) (by omega) (by omega)]
      · rw [if_neg hcond]
        have htail : ((pages.drop (k + 1)).flatten).length = 0 := by omega
        rw [List.length_eq_zero] at htail
        rw [htail]
        simp
    · have hk2 : pages.length ≤ k := by omega
      have hdrop : pages.drop k = [] := List.drop_eq_nil_of_le hk2
      have hgetD : pages.getD k [] = [] := getD_of_length_le pages k [] hk2
      rw [hdrop] at hinv ⊢
      simp only [List.flatten_nil, List.length_nil, Nat.add_zero] at hinv
      simp only [loadPaginatedTxs, Nat.add_sub_cancel, hgetD]
      rw [if_neg (by simp [hinv])]
      simp

/-- C4 (amended): against an upstream that reports `total_count = N` and
serves exactly the pages of a partition of its `N` transactions (so the
page lengths sum to exactly `N`), the accumulation returns exactly the
concatenation of the pages in fetch order — `N` elements, order
preserved, nothing dropped or duplicated — within `pages + 1` nested
calls. -/
theorem loadPaginatedTxs_exact_accumulation {τ : Type} (pages : List (List τ)) :
    loadPaginatedTxs (fun p => (pages.getD (p - 1) [], (pages.flatten).length))
        (pages.length + 1) 1 0 = some pages.flatten := by
  have h := loadPaginatedTxs_exact_aux (pages.length + 1) pages 0 0 (by simp)
    (by omega)
  simpa using h

/-- C4 counterexample: an upstream reporting `total_count = 3` that
serves pages of sizes 2 and 2 (lengths summing to 4, which is at least
3) makes the loop return all 4 fetched elements — not exactly 3 as the
claim states. -/
theorem loadPaginatedTxs_overcount_refuted :
    loadPaginatedTxs
        (fun p => (([[0, 1], [2, 3]] : List (List Nat)).getD (p - 1) [], 3))
        3 1 0 = some [0, 1, 2, 3]
    ∧ ([0, 1, 2, 3] : List Nat).length ≠ 3 := by
  constructor <;> decide

/-! ## Self-stake fetch (`CosmosV0API.getSelfStake`, lines 151-182) -/

/-- An upstream query rejection: the HTTP status
(`error.extensions.response.status`) and the parsed `message` field of the
JSON error body (`JSON.parse(error.extensions.response.body.error)`). -/
structure UpstreamError where
  status : Nat
  message : String
deriving DecidableEq

/-- JS `String.prototype.startsWith`, modelled character-wise
(`List.isPrefixOf` on the character data). -/
def strStartsWith (s p : String) : Bool :=
  p.data.isPrefixOf s.data

/-- `getSelfStake(validator)`: query the validator's self delegation; on
a status-500 rejection whose parsed message starts with
"no delegation for this" return 0 as a valid value, otherwise rethrow the
error; on success return the reduced delegation amount.  The (missing
from the provided sources) cosmos `delegationReducer` is abstracted as
the `reduceAmount` parameter. -/
def getSelfStake {δ : Type} (reduceAmount : δ → Rat)
    (queryResult : Except UpstreamError δ) : Except UpstreamError Rat :=
  match queryResult with
  | Except.ok selfDelegation => Except.ok (reduceAmount selfDelegation)
  | Except.error error =>
    if error.status = 500 then
      if strStartsWith error.message "no delegation for this" then Except.ok 0
      else Except.error error
    else Except.error error

/-- C8: `getSelfStake` distinguishes absent from failed: a status-500
error whose body message starts with "no delegation for this" yields the
valid value 0; every other error propagates unmodified; success yields
the reduced delegation amount. -/
theorem getSelfStake_absent_vs_failed {δ : Type} (reduceAmount : δ → Rat)
    (queryResult : Except UpstreamError δ) :
    (∀ e, queryResult = Except.error e → e.status = 500 →
      strStartsWith e.message "no delegation for this" = true →
      getSelfStake reduceAmount queryResult = Except.ok 0)
    ∧ (∀ e, queryResult = Except.error e →
      ¬(e.status = 500 ∧ strStartsWith e.message "no delegation for this" = true) →
      getSelfStake reduceAmount queryResult = Except.error e)
    ∧ (∀ d, queryResult = Except.ok d →
      getSelfStake reduceAmount queryResult = Except.ok (reduceAmount d)) := by
  refine ⟨?_, ?_, ?_⟩
  · intro e he h500 hmsg
    subst he
    simp [getSelfStake, h500, hmsg]
  · intro e he hnot
    subst he
    by_cases h500 : e.status = 500
    · have hmsg : ¬ strStartsWith e.message "no delegation for this" = true := by
        intro hm
        exact hnot ⟨h500, hm⟩
      simp [getSelfStake, h500, hmsg]
    · simp [getSelfStake, h500]
  · intro d hd
    subst hd
    rfl

/-- C8 witness: the three behaviours at concrete inputs. -/
theorem getSelfStake_absent_vs_failed_witness :
    getSelfStake (fun _ : Unit => (7 : Rat))
        (Except.error ⟨500, "no delegation for this delegator"⟩) = Except.ok 0
    ∧ getSelfStake (fun _ : Unit => (7 : Rat)) (Except.error ⟨404, "not found"⟩) =
        Except.error ⟨404, "not found"⟩
    ∧ getSelfStake (fun _ : Unit => (7 : Rat)) (Except.ok ()) =
        Except.ok ((fun _ : Unit => (7 : Rat)) ()) := by
  refine ⟨?_, ?_, ?_⟩
  · exact (getSelfStake_absent_vs_failed (fun _ : Unit => (7 : Rat)) _).1
      ⟨500, "no delegation for this delegator"⟩ rfl rfl (by decide)
  · exact (getSelfStake_absent_vs_failed (fun _ : Unit => (7 : Rat)) _).2.1
      ⟨404, "not found"⟩ rfl (by decide)
  · exact (getSelfStake_absent_vs_failed (fun _ : Unit => (7 : Rat)) _).2.2 () rfl

/-! ## Signing info (`CosmosV0API.getValidatorSigningInfo`, lines 114-144) -/

/-- The upstream signing-info response.  `address` is optional because
the JS object spread `{address: derived, ...response}` keeps the derived
address only when the response has no `address` property of its own;
`missed_blocks_counter` and `start_height` are always present in a
well-formed response. -/
structure SigningInfoResponse where
  address : Option String
  missed_blocks_counter : String
  start_height : String
deriving DecidableEq

/-- The record `getValidatorSigningInfo` returns. -/
structure SigningInfo where
  address : String
  missed_blocks_counter : String
  start_height : String
deriving DecidableEq

/-- The two hard-coded exception consensus pubkeys that are made to fail
unconditionally. -/
def signingInfoExceptions : List String :=
  ["cosmosvalconspub1zcjduepqx38v580cmd9em3n7mcgzj22jwdwks5lr3lfxl8g87vzjp7jyyszsr4xvzv",
    "cosmosvalconspub1zcjduepqlzmd0spn9m0m3eq9zp93d4w6e5tugamv44yqjzyacelnvra634fqnfec0r"]

/-- `getValidatorSigningInfo(pubkey)`: exception pubkeys throw inside the
`try`, any caught failure returns the default record with the derived
consensus address; on success the response is spread over
`{address: derived}`, so response fields override.  The (missing from the
provided sources) `pubkeyToAddress` tool is abstracted as a total
function parameter, applied to the pubkey and the network's consensus
bech32 prefix string.  The function is total: no error propagates. -/
def getValidatorSigningInfo {ε : Type} (pubkeyToAddress : String → String → String)
    (validatorConsensusBech32 : String) (upstream : Except ε SigningInfoResponse)
    (validatorConsensusPubKey : String) : SigningInfo :=
  if validatorConsensusPubKey ∈ signingInfoExceptions then
    ⟨pubkeyToAddress validatorConsensusPubKey validatorConsensusBech32, "0", "0"⟩
  else
    match upstream with
    | Except.ok response =>
      ⟨response.address.getD
          (pubkeyToAddress validatorConsensusPubKey validatorConsensusBech32),
        response.missed_blocks_counter, response.start_height⟩
    | Except.error _ =>
      ⟨pubkeyToAddress validatorConsensusPubKey validatorConsensusBech32, "0", "0"⟩

/-- C9 (amended): `getValidatorSigningInfo` is total (it never propagates
an upstream error).  On any upstream failure, or for the hard-coded
exception pubkeys, it returns the default record with
`missed_blocks_counter = "0"`, `start_height = "0"` and the consensus
address derived from the pubkey.  On success, the response is spread over
the derived address, so the returned address is the response's own
`address` field when present and the derived address only otherwise. -/
theorem getValidatorSigningInfo_default_on_failure {ε : Type}
    (pubkeyToAddress : String → String → String) (validatorConsensusBech32 : String)
    (upstream : Except ε SigningInfoResponse) (pk : String) :
    (∀ e, upstream = Except.error e →
      getValidatorSigningInfo pubkeyToAddress validatorConsensusBech32 upstream pk =
        ⟨pubkeyToAddress pk validatorConsensusBech32, "0", "0"⟩)
    ∧ (pk ∈ signingInfoExceptions →
      getValidatorSigningInfo pubkeyToAddress validatorConsensusBech32 upstream pk =
        ⟨pubkeyToAddress pk validatorConsensusBech32, "0", "0"⟩)
    ∧ (∀ r, pk ∉ signingInfoExceptions → upstream = Except.ok r →
      getValidatorSigningInfo pubkeyToAddress validatorConsensusBech32 upstream pk =
        ⟨r.address.getD (pubkeyToAddress pk validatorConsensusBech32),
          r.missed_blocks_counter, r.start_height⟩) := by
  refine ⟨?_, ?_, ?_⟩
  · intro e he
    subst he
    by_cases hx : pk ∈ signingInfoExceptions <;>
      simp [getValidatorSigningInfo, hx]
  · intro hx
    simp [getValidatorSigningInfo, hx]
  · intro r hx hr
    subst hr
    simp [getValidatorSigningInfo, hx]

/-- C9 witness: a failing upstream yields the derived-address default
record. -/
theorem getValidatorSigningInfo_default_on_failure_witness :
    getValidatorSigningInfo (fun pk b => b ++ pk) "valcons"
        (Except.error (0 : Nat)) "PK" = ⟨"valconsPK", "0", "0"⟩ := by
  have h := (getValidatorSigningInfo_default_on_failure (fun pk b => b ++ pk)
    "valcons" (Except.error (0 : Nat)) "PK").1 0 rfl
  rw [h]
  decide

/-- C9 counterexample: on success with a response carrying its own
`address` field, the returned record's address is the response's value,
not the address derived from the pubkey — refuting the claim that the
returned record contains the derived consensus address in every case. -/
theorem getValidatorSigningInfo_address_not_always_derived :
    (getValidatorSigningInfo (fun pk b => b ++ pk) "valcons"
        (Except.ok ⟨some "spoofed", "5", "7"⟩ : Except Nat SigningInfoResponse)
        "PK").address = "spoofed"
    ∧ (fun pk b => b ++ pk) "PK" "valcons" = "valconsPK"
    ∧ ("spoofed" : String) ≠ "valconsPK" := by
  refine ⟨by decide, by decide, by decide⟩

/-! ## Delegations (`CosmosV0API.getDelegationsForDelegatorAddress`, lines 567-583) -/

/-- The `ACTIVE`/`INACTIVE` delegation enum. -/
inductive DelegationStatus where
  | ACTIVE
  | INACTIVE
deriving DecidableEq

/-- A raw delegation row from `staking/delegators/{address}/delegations`:
the validator address and the balance (`BigNumber(delegation.balance)`). -/
structure RawDelegation where
  validator_address : String
  balance : Rat

/-- `getDelegationsForDelegatorAddress(address)`: take the upstream list
(`|| []` on a null/absent response), keep the delegations with
`balance >= 1`, and reduce each with the validator looked up in the
store and the `ACTIVE` status.  The (missing from the provided sources)
cosmos `delegationReducer` and the validator store are abstracted as
parameters. -/
def getDelegationsForDelegatorAddress {ν ρ : Type}
    (delegationReducer : RawDelegation → Option ν → DelegationStatus → ρ)
    (validators : String → Option ν)
    (response : Option (List RawDelegation)) : List ρ :=
  let delegations := response.getD []
  (delegations.filter (fun delegation => decide (1 ≤ delegation.balance))).map
    (fun delegation =>
      delegationReducer delegation (validators delegation.validator_address)
        DelegationStatus.ACTIVE)

/-- `filter` then `map` as a single keep-in-order fold. -/
theorem filter_map_eq_foldr {α β : Type} (p : α → Bool) (f : α → β) :
    ∀ l : List α, (l.filter p).map f =
      l.foldr (fun a acc => if p a then f a :: acc else acc) [] := by
  intro l
  induction l with
  | nil => rfl
  | cons a t ih => by_cases h : p a <;> simp [List.filter_cons, h, ih]

/-- C10: one reduced ACTIVE delegation per raw delegation with balance at
least 1, in input order; raw delegations with balance below 1 are
dropped; a null upstream response yields the empty list. -/
theorem getDelegationsForDelegatorAddress_filter {ν ρ : Type}
    (delegationReducer : RawDelegation → Option ν → DelegationStatus → ρ)
    (validators : String → Option ν) :
    getDelegationsForDelegatorAddress delegationReducer validators none = []
    ∧ ∀ rs, getDelegationsForDelegatorAddress delegationReducer validators (some rs) =
        rs.foldr (fun d acc =>
          if 1 ≤ d.balance then
            delegationReducer d (validators d.validator_address)
              DelegationStatus.ACTIVE :: acc
          else acc) [] := by
  constructor
  · rfl
  · intro rs
    have h := filter_map_eq_foldr (fun d : RawDelegation => decide (1 ≤ d.balance))
      (fun d : RawDelegation =>
        delegationReducer d (validators d.validator_address) DelegationStatus.ACTIVE) rs
    simpa [getDelegationsForDelegatorAddress] using h

/-! ## Reward aggregation (`dbRewardsReducer`, polkadotV0-reducers.js:452-476) -/

/-- A raw reward row from the database: validator address, denomination,
numeric amount. -/
structure DbReward where
  validator : String
  denom : String
  amount : Rat
deriving DecidableEq

/-- An element of the flattened aggregated list (before the validator
dictionary substitution): the amount is already rendered by
`toFixed(6)`. -/
structure FlatReward where
  validator : String
  denom : String
  amount : String
deriving DecidableEq

/-- The final output records of `dbRewardsReducer`: the validator is the
dictionary entry for the validator address. -/
structure OutReward (γ : Type) where
  validator : γ
  denom : String
  amount : String

/-- `sum[validator][denom] = (sum[validator][denom] || 0) + amount` on
the inner JS object, modelled as an insertion-ordered association list:
an existing denom key is updated in place, a new one is appended. -/
def addToDenomGroup : List (String × Rat) → String → Rat → List (String × Rat)
  | [], d, a => [(d, a)]
  | (d0, a0) :: rest, d, a =>
    if d0 = d then (d0, a0 + a) :: rest
    else (d0, a0) :: addToDenomGroup rest d a

/-- `sum[validator] = sum[validator] || {}` followed by the inner update,
on the outer JS object. -/
def addToValidatorGroup :
    List (String × List (String × Rat)) → String → String → Rat →
      List (String × List (String × Rat))
  | [], v, d, a => [(v, [(d, a)])]
  | (v0, ds) :: rest, v, d, a =>
    if v0 = v then (v0, addToDenomGroup ds d a) :: rest
    else (v0, ds) :: addToValidatorGroup rest v d a

/-- The `dbRewards.reduce(...)` grouping pass of `dbRewardsReducer`. -/
def aggregatedRewards (dbRewards : List DbReward) :
    List (String × List (String × Rat)) :=
  dbRewards.foldl
    (fun sum reward => addToValidatorGroup sum reward.validator reward.denom
      reward.amount) []

/-- The `Object.entries(...).reduce(...)` flattening pass: per validator,
one record per denom with the amount rendered by `toFixed(6)`. -/
def flattenAggregated (acc : List (String × List (String × Rat))) :
    List FlatReward :=
  acc.foldl
    (fun sum vr => sum ++ vr.2.map (fun da => ⟨vr.1, da.1, jsToFixed 6 da.2⟩)) []

/-- The `flattenedAggregatedRewards` local of `dbRewardsReducer`. -/
def flattenedAggregatedRewards (dbRewards : List DbReward) : List FlatReward :=
  flattenAggregated (aggregatedRewards dbRewards)

/-- `dbRewardsReducer(validatorsDictionary, dbRewards)` from
polkadotV0-reducers.js:452-476: group by validator then denom, sum,
render with 6 decimals, and substitute the validator dictionary entry. -/
def dbRewardsReducer {γ : Type} (validatorsDictionary : String → γ)
    (dbRewards : List DbReward) : List (OutReward γ) :=
  (flattenedAggregatedRewards dbRewards).map
    (fun reward => ⟨validatorsDictionary reward.validator, reward.denom,
      reward.amount⟩)

/-- The raw rewards carrying exactly the pair `(v, d)`. -/
def rewardMatches (v d : String) (r : DbReward) : Bool :=
  decide (r.validator = v ∧ r.denom = d)

/-- The flattened records carrying exactly the pair `(v, d)`. -/
def flatMatches (v d : String) (r : FlatReward) : Bool :=
  decide (r.validator = v ∧ r.denom = d)

/-- Association-list lookup on a denom group. -/
def lookupDenom : List (String × Rat) → String → Option Rat
  | [], _ => none
  | (d0, a0) :: rest, d => if d0 = d then some a0 else lookupDenom rest d

/-- Nested lookup on the validator grouping. -/
def lookupVD : List (String × List (String × Rat)) → String → String → Option Rat
  | [], _, _ => none
  | (v0, ds) :: rest, v, d => if v0 = v then lookupDenom ds d else lookupVD rest v d

/-- The well-formedness invariant of the JS-object model: outer validator
keys are distinct, and each inner denom key list is distinct. -/
def accKeysOk (acc : List (String × List (String × Rat))) : Prop :=
  (acc.map Prod.fst).Nodup ∧ ∀ p ∈ acc, (p.2.map Prod.fst).Nodup


/-- Inner update seen through the inner lookup. -/
theorem lookupDenom_addToDenomGroup :
    ∀ (ds : List (String × Rat)) (d : String) (a : Rat) (d2 : String),
      lookupDenom (addToDenomGroup ds d a) d2 =
        if d2 = d then some ((lookupDenom ds d).getD 0 + a)
        else lookupDenom ds d2 := by
  intro ds
  induction ds with
  | nil =>
    intro d a d2
    by_cases h : d2 = d
    · subst h
      simp [addToDenomGroup, lookupDenom]
    · have h2 : ¬ d = d2 := fun hh => h hh.symm
      simp [addToDenomGroup, lookupDenom, h, h2]
  | cons p rest ih =>
    intro d a d2
    obtain ⟨d0, a0⟩ := p
    by_cases h0 : d0 = d
    · subst h0
      by_cases h2 : d2 = d0
      · subst h2
        simp [addToDenomGroup, lookupDenom]
      · have h2b : ¬ d0 = d2 := fun hh => h2 hh.symm
        simp [addToDenomGroup, lookupDenom, h2, h2b]
    · by_cases h2 : d0 = d2
      · subst h2
        simp [addToDenomGroup, lookupDenom, h0]
      · simp [addToDenomGroup, lookupDenom, h0, h2, ih]

/-- Inner update seen through the inner key list. -/
theorem keys_addToDenomGroup :
    ∀ (ds : List (String × Rat)) (d : String) (a : Rat),
      (addToDenomGroup ds d a).map Prod.fst =
        if d ∈ ds.map Prod.fst then ds.map Prod.fst
        else ds.map Prod.fst ++ [d] := by
  intro ds
  induction ds with
  | nil => intro d a; simp [addToDenomGroup]
  | cons p rest ih =>
    intro d a
    obtain ⟨d0, a0⟩ := p
    by_cases h0 : d0 = d
    · subst h0
      simp [addToDenomGroup]
    · have h0b : ¬ d = d0 := fun hh => h0 hh.symm
      by_cases hm : d ∈ rest.map Prod.fst <;>
        simp [addToDenomGroup, h0, h0b, hm, ih]

/-- Inner update preserves distinct denom keys. -/
theorem nodup_addToDenomGroup (ds : List (String × Rat)) (d : String) (a : Rat)
    (h : (ds.map Prod.fst).Nodup) :
    ((addToDenomGroup ds d a).map Prod.fst).Nodup := by
  rw [keys_addToDenomGroup]
  by_cases hm : d ∈ ds.map Prod.fst
  · simp [hm, h]
  · simp [hm, h, List.nodup_append]

/-- Outer update seen through the nested lookup. -/
theorem lookupVD_addToValidatorGroup :
    ∀ (acc : List (String × List (String × Rat))) (v d : String) (a : Rat)
      (v2 d2 : String),
      lookupVD (addToValidatorGroup acc v d a) v2 d2 =
        if v2 = v ∧ d2 = d then some ((lookupVD acc v d).getD 0 + a)
        else lookupVD acc v2 d2 := by
  intro acc
  induction acc with
  | nil =>
    intro v d a v2 d2
    by_cases hv : v2 = v
    · subst hv
      by_cases hd : d2 = d
      · subst hd
        simp [addToValidatorGroup, lookupVD, lookupDenom]
      · have hdb : ¬ d = d2 := fun hh => hd hh.symm
        simp [addToValidatorGroup, lookupVD, lookupDenom, hd, hdb]
    · have hvb : ¬ v = v2 := fun hh => hv hh.symm
      simp [addToValidatorGroup, lookupVD, hv, hvb]
  | cons q rest ih =>
    intro v d a v2 d2
    obtain ⟨v0, ds⟩ := q
    by_cases h0 : v0 = v
    · subst h0
      by_cases hv : v2 = v0
      · subst hv
        simp [addToValidatorGroup, lookupVD, lookupDenom_addToDenomGroup]
      · have hvb : ¬ v0 = v2 := fun hh => hv hh.symm
        simp [addToValidatorGroup, lookupVD, hv, hvb]
    · by_cases hv : v0 = v2
      · subst hv
        have hvb : ¬ v0 = v := h0
        simp [addToValidatorGroup, lookupVD, h0, hvb]
      · simp [addToValidatorGroup, lookupVD, h0, hv, ih]

/-- Outer update seen through the outer key list. -/
theorem keys_addToValidatorGroup :
    ∀ (acc : List (String × List (String × Rat))) (v d : String) (a : Rat),
      (addToValidatorGroup acc v d a).map Prod.fst =
        if v ∈ acc.map Prod.fst then acc.map Prod.fst
        else acc.map Prod.fst ++ [v] := by
  intro acc
  induction acc with
  | nil => intro v d a; simp [addToValidatorGroup]
  | cons q rest ih =>
    intro v d a
    obtain ⟨v0, ds⟩ := q
    by_cases h0 : v0 = v
    · subst h0
      simp [addToValidatorGroup]
    · have h0b : ¬ v = v0 := fun hh => h0 hh.symm
      by_cases hm : v ∈ rest.map Prod.fst <;>
        simp [addToValidatorGroup, h0, h0b, hm, ih]

/-- `accKeysOk` unfolded one group. -/
theorem accKeysOk_cons (v0 : String) (ds : List (String × Rat))
    (rest : List (String × List (String × Rat))) :
    accKeysOk ((v0, ds) :: rest) ↔
      (v0 ∉ rest.map Prod.fst ∧ (ds.map Prod.fst).Nodup ∧ accKeysOk rest) := by
  unfold accKeysOk
  constructor
  · rintro ⟨h1, h2⟩
    rw [List.map_cons, List.nodup_cons] at h1
    exact ⟨h1.1, h2 (v0, ds) (by simp), h1.2, fun p hp => h2 p (by simp [hp])⟩
  · rintro ⟨h1, h2, h3, h4⟩
    refine ⟨by simp [List.nodup_cons, h1, h3], ?_⟩
    intro p hp
    rcases List.mem_cons.mp hp with hp1 | hp1
    · subst hp1; exact h2
    · exact h4 p hp1

/-- Outer update preserves the grouping invariant. -/
theorem accKeysOk_addToValidatorGroup :
    ∀ (acc : List (String × List (String × Rat))) (v d : String) (a : Rat),
      accKeysOk acc → accKeysOk (addToValidatorGroup acc v d a) := by
  intro acc
  induction acc with
  | nil =>
    intro v d a _
    refine ⟨by simp [addToValidatorGroup], ?_⟩
    intro p hp
    simp only [addToValidatorGroup, List.mem_singleton] at hp
    subst hp
    simp
  | cons q rest ih =>
    intro v d a h
    obtain ⟨v0, ds⟩ := q
    rw [accKeysOk_cons] at h
    obtain ⟨h1, h2, h3⟩ := h
    by_cases h0 : v0 = v
    · subst h0
      have hstep : addToValidatorGroup ((v0, ds) :: rest) v0 d a =
          (v0, addToDenomGroup ds d a) :: rest := by
        simp [addToValidatorGroup]
      rw [hstep, accKeysOk_cons]
      exact ⟨h1, nodup_addToDenomGroup ds d a h2, h3⟩
    · have hstep : addToValidatorGroup ((v0, ds) :: rest) v d a =
          (v0, ds) :: addToValidatorGroup rest v d a := by
        simp [addToValidatorGroup, h0]
      rw [hstep, accKeysOk_cons]
      refine ⟨?_, h2, ih v d a h3⟩
      rw [keys_addToValidatorGroup]
      by_cases hm : v ∈ rest.map Prod.fst
      · simp [hm, h1]
      · simp [hm, h1, h0]

/-- The grouping pass preserves the invariant from any well-formed start. -/
theorem accKeysOk_aggregate :
    ∀ (rs : List DbReward) (acc : List (String × List (String × Rat))),
      accKeysOk acc →
      accKeysOk (rs.foldl
        (fun sum r => addToValidatorGroup sum r.validator r.denom r.amount) acc) := by
  intro rs
  induction rs with
  | nil => intro acc h; exact h
  | cons r rest ih =>
    intro acc h
    exact ih _ (accKeysOk_addToValidatorGroup acc r.validator r.denom r.amount h)

/-- The grouping pass seen through the nested lookup: the final entry for
`(v, d)` is the sum of the matching raw amounts (shifted by whatever the
starting accumulator already held). -/
theorem lookupVD_foldl (v d : String) :
    ∀ (rs : List DbReward) (acc : List (String × List (String × Rat))),
      lookupVD (rs.foldl
          (fun sum r => addToValidatorGroup sum r.validator r.denom r.amount) acc)
          v d =
        if lookupVD acc v d = none ∧ rs.filter (rewardMatches v d) = [] then none
        else some ((lookupVD acc v d).getD 0 +
          ((rs.filter (rewardMatches v d)).map DbReward.amount).sum) := by
  intro rs
  induction rs with
  | nil =>
    intro acc
    cases hl : lookupVD acc v d <;> simp [hl]
  | cons r rest ih =>
    intro acc
    obtain ⟨rv, rd, ra⟩ := r
    rw [List.foldl_cons, ih, lookupVD_addToValidatorGroup]
    by_cases hm : rewardMatches v d ⟨rv, rd, ra⟩ = true
    · have hx : rv = v ∧ rd = d := of_decide_eq_true hm
      obtain ⟨hxv, hxd⟩ := hx
      subst hxv
      subst hxd
      simp [rewardMatches, List.filter_cons, add_assoc]
    · have hm2 : ¬(v = rv ∧ d = rd) := by
        intro hc
        exact hm (decide_eq_true ⟨hc.1.symm, hc.2.symm⟩)
      rw [if_neg hm2]
      simp [List.filter_cons, hm]

/-- A left fold that appends is a flatten. -/
theorem foldl_append_eq_flatten {α β : Type} (f : α → List β) :
    ∀ (l : List α) (init : List β),
      l.foldl (fun sum x => sum ++ f x) init = init ++ (l.map f).flatten := by
  intro l
  induction l with
  | nil => intro init; simp
  | cons a t ih => intro init; simp [ih]

/-- `flattenAggregated` unfolded one group. -/
theorem flattenAggregated_cons (q : String × List (String × Rat))
    (rest : List (String × List (String × Rat))) :
    flattenAggregated (q :: rest) =
      (q.2.map (fun da => (⟨q.1, da.1, jsToFixed 6 da.2⟩ : FlatReward))) ++
        flattenAggregated rest := by
  unfold flattenAggregated
  rw [foldl_append_eq_flatten, foldl_append_eq_flatten]
  simp

/-- Records of a group with another validator never match. -/
theorem filter_groupRecords_other (v d v0 : String) (ds : List (String × Rat))
    (h : v0 ≠ v) :
    (ds.map (fun da => (⟨v0, da.1, jsToFixed 6 da.2⟩ : FlatReward))).filter
      (flatMatches v d) = [] := by
  induction ds with
  | nil => rfl
  | cons p rest ih => simp [List.filter_cons, flatMatches, h, ih]

/-- Records of a group without the denom key never match. -/
theorem filter_groupRecords_nodenom (v d : String) :
    ∀ ds : List (String × Rat), d ∉ ds.map Prod.fst →
      (ds.map (fun da => (⟨v, da.1, jsToFixed 6 da.2⟩ : FlatReward))).filter
        (flatMatches v d) = [] := by
  intro ds
  induction ds with
  | nil => intro _; rfl
  | cons p rest ih =>
    intro h
    simp only [List.map_cons, List.mem_cons] at h
    push_neg at h
    have h1 : ¬ p.1 = d := fun hh => h.1 hh.symm
    simp [List.filter_cons, flatMatches, h1, ih h.2]

/-- Filtering a single validator group for `(v, d)` finds exactly the
entry the inner lookup finds. -/
theorem filter_groupRecords_self (v d : String) :
    ∀ ds : List (String × Rat), (ds.map Prod.fst).Nodup →
      (ds.map (fun da => (⟨v, da.1, jsToFixed 6 da.2⟩ : FlatReward))).filter
        (flatMatches v d) =
        (match lookupDenom ds d with
          | some a => [⟨v, d, jsToFixed 6 a⟩]
          | none => []) := by
  intro ds
  induction ds with
  | nil => intro _; rfl
  | cons p rest ih =>
    intro h
    obtain ⟨d0, a0⟩ := p
    simp only [List.map_cons, List.nodup_cons] at h
    by_cases hd : d0 = d
    · subst hd
      simp [List.filter_cons, flatMatches, lookupDenom,
        filter_groupRecords_nodenom v d0 rest h.1]
    · simp [List.filter_cons, flatMatches, hd, lookupDenom, ih h.2]

/-- No group for `v` at all means no matching flattened record. -/
theorem filter_flattenAggregated_none (v d : String) :
    ∀ acc : List (String × List (String × Rat)), v ∉ acc.map Prod.fst →
      (flattenAggregated acc).filter (flatMatches v d) = [] := by
  intro acc
  induction acc with
  | nil => intro _; rfl
  | cons q rest ih =>
    intro h
    obtain ⟨v0, ds⟩ := q
    simp only [List.map_cons, List.mem_cons] at h
    push_neg at h
    rw [flattenAggregated_cons, List.filter_append,
      filter_groupRecords_other v d v0 ds (fun hh => h.1 hh.symm), ih h.2]
    rfl

/-- Filtering the flattened list for `(v, d)` finds exactly the entry the
nested lookup finds, provided the grouping invariant holds. -/
theorem filter_flattenAggregated (v d : String) :
    ∀ acc : List (String × List (String × Rat)), accKeysOk acc →
      (flattenAggregated acc).filter (flatMatches v d) =
        (match lookupVD acc v d with
          | some a => [⟨v, d, jsToFixed 6 a⟩]
          | none => []) := by
  intro acc
  induction acc with
  | nil => intro _; rfl
  | cons q rest ih =>
    intro h
    obtain ⟨v0, ds⟩ := q
    rw [accKeysOk_cons] at h
    obtain ⟨hnotin, hdsnodup, hrest⟩ := h
    rw [flattenAggregated_cons, List.filter_append]
    by_cases hv : v0 = v
    · subst hv
      rw [filter_groupRecords_self v0 d ds hdsnodup,
        filter_flattenAggregated_none v0 d rest hnotin]
      cases hl : lookupDenom ds d <;> simp [lookupVD, hl]
    · rw [filter_groupRecords_other v d v0 ds hv, ih hrest]
      simp [lookupVD, hv]

/-- C5: reward aggregation produces exactly one output record per
distinct (validator, denom) pair occurring in the input — the filter of
the flattened output for the pair is a singleton whose amount is the sum
of the matching input amounts rendered with 6 decimal places, and is
empty when the pair does not occur; `dbRewardsReducer` is that flattened
list with the validator dictionary entry substituted in.  In particular
(V1, uatom, 10), (V1, uatom, 5), (V2, uatom, 3) yields (V1, uatom, 15)
and (V2, uatom, 3). -/
theorem dbRewardsReducer_pair_aggregation :
    (∀ (rs : List DbReward) (v d : String),
      (flattenedAggregatedRewards rs).filter (flatMatches v d) =
        if rs.filter (rewardMatches v d) = [] then []
        else [⟨v, d, jsToFixed 6
          (((rs.filter (rewardMatches v d)).map DbReward.amount).sum)⟩])
    ∧ (∀ (γ : Type) (dict : String → γ) (rs : List DbReward),
      dbRewardsReducer dict rs = (flattenedAggregatedRewards rs).map
        (fun r => ⟨dict r.validator, r.denom, r.amount⟩))
    ∧ dbRewardsReducer (fun s => s)
        [⟨"V1", "uatom", 10⟩, ⟨"V1", "uatom", 5⟩, ⟨"V2", "uatom", 3⟩] =
      [⟨"V1", "uatom", "15.000000"⟩, ⟨"V2", "uatom", "3.000000"⟩] := by
  refine ⟨?_, ?_, ?_⟩
  · intro rs v d
    have hinv : accKeysOk (aggregatedRewards rs) :=
      accKeysOk_aggregate rs [] ⟨by simp, by simp⟩
    unfold flattenedAggregatedRewards
    rw [filter_flattenAggregated v d _ hinv]
    rw [show aggregatedRewards rs = rs.foldl
      (fun sum r => addToValidatorGroup sum r.validator r.denom r.amount) []
      from rfl]
    rw [lookupVD_foldl v d rs []]
    by_cases hf : rs.filter (rewardMatches v d) = []
    · simp [hf, lookupVD]
    · simp [hf, lookupVD]
  · intro γ dict rs
    rfl
  · have h15 : jsToFixed 6 ((10 : Rat) + 5) = "15.000000" := by
      have hnum : ((10 : Rat) + 5).num = 15 := by norm_num
      have hden : ((10 : Rat) + 5).den = 1 := by norm_num
      simp only [jsToFixed, jsToFixedNonneg, hnum, hden]
      decide
    have h15b : jsToFixed 6 (15 : Rat) = "15.000000" := by decide
    have h3 : jsToFixed 6 (3 : Rat) = "3.000000" := by decide
    simp [dbRewardsReducer, flattenedAggregatedRewards, aggregatedRewards,
      flattenAggregated, List.foldl_cons, List.foldl_nil, addToValidatorGroup,
      addToDenomGroup, h15, h15b, h3]
